import Mathlib

/-!
Shallow embedding of the TextGAN-Researcher execution-state and agent layer
(`src/models/execution_state.py`, `src/models/base_models.py`,
`src/agents/textgan_agents.py`, `src/tools/analysis_tools.py`).

Modelling conventions:
* Python `float` scores are modelled as `ℚ` (only order/equality matter here).
* `datetime.datetime.now().isoformat()` timestamps are passed in explicitly as
  `String` arguments named `now`.
* Calendar timestamps used by `get_knowledge_by_recency` are modelled as `Int`
  day counts; `dateutil.parser.parse` (library code, not part of the repo) is
  modelled as an abstract parameter `parseDate : String → Option Int`
  (`none` = the parser raises), and `relativedelta(now, pub_date)` as an
  abstract parameter `ageAt : Int → AgeDelta`.
* The LLM capability (`self.llm.invoke`) is modelled as a deterministic
  function `String → String` from prompt text to response content, and the
  number of invocations is returned explicitly where a claim needs it.
* `json.loads` + field access + `float()` in `RewarderAgent.evaluate`
  (library code) are modelled as an abstract parameter
  `parse : String → Except String (ℚ × String)`; `Except.error e` carries
  `str(e)` of the raised exception.
* Python attribute truthiness (`if x:` on `Optional[str]`) is `none` or the
  empty string being falsy; this is modelled explicitly.
* `KnowledgeItem.value` has Python type `Any`; it is modelled as `String`.
-/

/-- Model of `SearchResultItem` from `base_models.py`. -/
structure SearchResultItem where
  content : String
  url : String
  publish_date : Option String
  confidence : ℚ
deriving DecidableEq

/-- Model of `KnowledgeItem` from `base_models.py` (`value : Any` modelled as
`String`). -/
structure KnowledgeItem where
  key : String
  value : String
  source : String
  publish_date : Option String
  added_at : String
  confidence : ℚ
  goal_id : Option String
  verified : Bool
deriving DecidableEq

/-- A decomposed goal dict as built by `add_goal`. -/
structure Goal where
  id : String
  description : String
  status : String
  created_at : String
  completed_at : Option String
  related_searches : List String
  related_knowledge : List String
deriving DecidableEq

/-- A search-iteration dict as built by `add_iteration`. -/
structure SearchIteration where
  id : String
  timestamp : String
  query : String
  results : List SearchResultItem
  goal_id : Option String
deriving DecidableEq

/-- A hypothesis dict as built by `add_hypothesis`. -/
structure Hypothesis where
  id : String
  hypothesis : String
  status : String
  supporting_knowledge_ids : List String
  contradicting_knowledge_ids : List String
deriving DecidableEq

/-- A contradiction dict as built by `add_contradiction`. -/
structure Contradiction where
  id : String
  description : String
  conflicting_knowledge_ids : List String
  resolution_attempt_description : Option String
  status : String
deriving DecidableEq

/-- A generation-history dict as appended by `add_generation`. -/
structure HistoryEntry where
  timestamp : String
  content : Option String
  score : Option ℚ
  criticism : Option String
deriving DecidableEq

/-- Model of `EnhancedExecutionState` from `execution_state.py`. -/
structure EnhancedExecutionState where
  task_id : String
  task_description : String
  decomposed_goals : List Goal
  search_iterations : List SearchIteration
  knowledge_base : List KnowledgeItem
  hypotheses : List Hypothesis
  contradictions : List Contradiction
  current_generation : Option String
  current_score : Option ℚ
  current_criticism : Option String
  history : List HistoryEntry
deriving DecidableEq

/-- A freshly constructed state: the pydantic field defaults
(`default_factory=list`, `None` current triple). -/
def freshState (task_id task_description : String) : EnhancedExecutionState :=
  { task_id := task_id
    task_description := task_description
    decomposed_goals := []
    search_iterations := []
    knowledge_base := []
    hypotheses := []
    contradictions := []
    current_generation := none
    current_score := none
    current_criticism := none
    history := [] }

/-- Model of `EnhancedExecutionState.add_generation`: pushes the *previous* current
triple into `history` (with a fresh timestamp), then overwrites the current
triple with the new generation. -/
def EnhancedExecutionState.add_generation (st : EnhancedExecutionState)
    (now content : String) (score : ℚ) (criticism : String) :
    EnhancedExecutionState :=
  { st with
    history := st.history ++
      [{ timestamp := now
         content := st.current_generation
         score := st.current_score
         criticism := st.current_criticism }]
    current_generation := some content
    current_score := some score
    current_criticism := some criticism }

/-- One call to `add_generation`, as data. -/
structure GenCall where
  now : String
  content : String
  score : ℚ
  criticism : String
deriving DecidableEq

/-- Run a sequence of `add_generation` calls. -/
def EnhancedExecutionState.runGenerations (st : EnhancedExecutionState)
    (calls : List GenCall) : EnhancedExecutionState :=
  calls.foldl
    (fun s c => s.add_generation c.now c.content c.score c.criticism) st

/-- The history entries a call sequence appends, given the current triple at
the start of the sequence. -/
def genEntries (cur : Option String × Option ℚ × Option String) :
    List GenCall → List HistoryEntry
  | [] => []
  | c :: cs =>
    { timestamp := c.now, content := cur.1, score := cur.2.1,
      criticism := cur.2.2 } ::
      genEntries (some c.content, some c.score, some c.criticism) cs

theorem genEntries_length (cur : Option String × Option ℚ × Option String)
    (calls : List GenCall) : (genEntries cur calls).length = calls.length := by
  induction calls generalizing cur with
  | nil => rfl
  | cons c cs ih => simp [genEntries, ih]

theorem runGenerations_history (st : EnhancedExecutionState)
    (calls : List GenCall) :
    (st.runGenerations calls).history =
      st.history ++
        genEntries (st.current_generation, st.current_score,
          st.current_criticism) calls := by
  induction calls generalizing st with
  | nil => simp [EnhancedExecutionState.runGenerations, genEntries]
  | cons c cs ih =>
    simp only [EnhancedExecutionState.runGenerations, List.foldl_cons] at *
    rw [ih]
    simp [EnhancedExecutionState.add_generation, genEntries]

/-- Concrete state whose current triple is `(some "a", some 5, some "r")`. -/
def c1State : EnhancedExecutionState :=
  { freshState "t" "task" with
    current_generation := some "a"
    current_score := some (5 : ℚ)
    current_criticism := some "r" }

/-- C1 counterexample: committing a generation identical to the current triple
makes the last history entry equal the freshly committed triple, so the
"never `(c2, s2, r2)`" part of the claim fails when
`(c1, s1, r1) = (c2, s2, r2)`. Here the state holds `("a", 5, "r")` and
`add_generation("a", 5, "r")` is called: the archived entry equals both the
previous and the fresh triple. -/
theorem add_generation_last_can_equal_fresh :
    ((c1State.add_generation "t1" "a" 5 "r").history.getLast?.map
        (fun e => (e.content, e.score, e.criticism))) =
      some (some "a", some (5 : ℚ), some "r") := by
  decide

/-- C1 (amended): after `add_generation(c2, s2, r2)` on a state whose current
triple is `(c1, s1, r1)`, the last history entry holds `(c1, s1, r1)` and the
current triple equals `(c2, s2, r2)`; moreover the last entry differs from the
freshly committed triple whenever `(c1, s1, r1) ≠ (c2, s2, r2)`. -/
theorem add_generation_commit_round_trip (st : EnhancedExecutionState)
    (now c1 r1 c2 r2 : String) (s1 s2 : ℚ)
    (hg : st.current_generation = some c1)
    (hs : st.current_score = some s1)
    (hc : st.current_criticism = some r1) :
    (st.add_generation now c2 s2 r2).history.getLast? =
        some { timestamp := now, content := some c1, score := some s1,
               criticism := some r1 } ∧
      (st.add_generation now c2 s2 r2).current_generation = some c2 ∧
      (st.add_generation now c2 s2 r2).current_score = some s2 ∧
      (st.add_generation now c2 s2 r2).current_criticism = some r2 ∧
      ((c1, s1, r1) ≠ (c2, s2, r2) →
        ∀ e, (st.add_generation now c2 s2 r2).history.getLast? = some e →
          (e.content, e.score, e.criticism) ≠ (some c2, some s2, some r2)) := by
  refine ⟨?_, rfl, rfl, rfl, ?_⟩
  · simp [EnhancedExecutionState.add_generation, hg, hs, hc]
  · intro hne e he heq
    simp [EnhancedExecutionState.add_generation, hg, hs, hc] at he
    apply hne
    rw [← he] at heq
    simp at heq
    obtain ⟨h1, h2, h3⟩ := heq
    simp [h1, h2, h3]

/-- Witness for C1: the amended theorem applied at the concrete state
`c1State` (current triple `("a", 5, "r")`) with the distinct fresh triple
`("b", 6, "q")`. -/
theorem add_generation_commit_round_trip_witness :
    (c1State.add_generation "t1" "b" 6 "q").history.getLast? =
        some { timestamp := "t1", content := some "a", score := some (5 : ℚ),
               criticism := some "r" } ∧
      (c1State.add_generation "t1" "b" 6 "q").current_generation = some "b" ∧
      (c1State.add_generation "t1" "b" 6 "q").current_score = some (6 : ℚ) ∧
      (c1State.add_generation "t1" "b" 6 "q").current_criticism = some "q" ∧
      (("a", (5 : ℚ), "r") ≠ ("b", (6 : ℚ), "q") →
        ∀ e, (c1State.add_generation "t1" "b" 6 "q").history.getLast? = some e →
          (e.content, e.score, e.criticism) ≠ (some "b", some (6 : ℚ), some "q")) :=
  add_generation_commit_round_trip c1State "t1" "a" "r" "b" "q" 5 6 rfl rfl rfl

/-- C10: from a fresh state (current triple all `none`), a sequence of `n`
`add_generation` calls leaves exactly `n` history entries, and the first entry
ever pushed records content, score and criticism all `none`. -/
theorem runGenerations_fresh_first_entry (tid tdesc : String)
    (calls : List GenCall) :
    ((freshState tid tdesc).runGenerations calls).history.length =
        calls.length ∧
      ∀ e, ((freshState tid tdesc).runGenerations calls).history.head? =
          some e → e.content = none ∧ e.score = none ∧ e.criticism = none := by
  have h := runGenerations_history (freshState tid tdesc) calls
  constructor
  · rw [h]
    simp [freshState, genEntries_length]
  · intro e he
    rw [h] at he
    simp only [freshState, List.nil_append] at he
    cases calls with
    | nil => simp [genEntries] at he
    | cons c cs =>
      simp [genEntries] at he
      simp [← he]

/-- Witness for C10: a two-call sequence from a fresh state leaves two history
entries; the hypothesis of the head-entry clause is discharged by evaluation. -/
theorem runGenerations_fresh_first_entry_witness :
    ((freshState "t" "d").runGenerations
          [⟨"t1", "x", 7, "c1"⟩, ⟨"t2", "y", 8, "c2"⟩]).history.length = 2 ∧
      ({ timestamp := "t1", content := none, score := none,
         criticism := none } : HistoryEntry).content = none ∧
      ((freshState "t" "d").runGenerations
          [⟨"t1", "x", 7, "c1"⟩, ⟨"t2", "y", 8, "c2"⟩]).history.head? =
        some { timestamp := "t1", content := none, score := none,
               criticism := none } :=
  ⟨(runGenerations_fresh_first_entry "t" "d" _).1, rfl, by decide⟩

/-- The loop body of `update_goal_status`: walk the goal list, and on the
*first* goal whose id matches, overwrite `status` and — only when the new
status is `"completed"` — set `completed_at` to the current timestamp, then
stop (`break`). -/
def updateGoalList : List Goal → String → String → String → List Goal
  | [], _, _, _ => []
  | g :: rest, gid, status, now =>
    if g.id = gid then
      { g with
        status := status
        completed_at :=
          if status = "completed" then some now else g.completed_at } :: rest
    else g :: updateGoalList rest gid status now

/-- Model of `EnhancedExecutionState.update_goal_status`. -/
def EnhancedExecutionState.update_goal_status (st : EnhancedExecutionState)
    (goal_id status now : String) : EnhancedExecutionState :=
  { st with decomposed_goals := updateGoalList st.decomposed_goals goal_id status now }

/-- Model of `EnhancedExecutionState.add_goal`: appends a goal with id
`"goal_" ++ (previous count + 1)` and returns the id. -/
def EnhancedExecutionState.add_goal (st : EnhancedExecutionState)
    (goal status now : String) : EnhancedExecutionState × String :=
  let goal_id := "goal_" ++ toString (st.decomposed_goals.length + 1)
  ({ st with
      decomposed_goals := st.decomposed_goals ++
        [{ id := goal_id
           description := goal
           status := status
           created_at := now
           completed_at := none
           related_searches := []
           related_knowledge := [] }] },
    goal_id)

/-- Lookup in a Python dict modelled as an association list: first match. -/
def dictGet : List (String × Nat) → String → Option Nat
  | [], _ => none
  | (k, v) :: rest, key => if k = key then some v else dictGet rest key

/-- Assignment in a Python dict modelled as an association list: overwrite the
first entry with the key, or append a new entry. -/
def dictSet : List (String × Nat) → String → Nat → List (String × Nat)
  | [], key, v => [(key, v)]
  | (k, w) :: rest, key, v =>
    if k = key then (key, v) :: rest else (k, w) :: dictSet rest key v

/-- One iteration of the `get_goal_progress` counting loop:
`stats[goal["status"]] = stats.get(goal["status"], 0) + 1`. -/
def progressStep (stats : List (String × Nat)) (g : Goal) : List (String × Nat) :=
  dictSet stats g.status ((dictGet stats g.status).getD 0 + 1)

/-- The counting loop of `get_goal_progress` over a goal list: start from
`{"total": len, "completed": 0, "in_progress": 0, "pending": 0}` and run
`progressStep` for each goal. -/
def goalProgress (goals : List Goal) : List (String × Nat) :=
  goals.foldl progressStep
    [("total", goals.length), ("completed", 0), ("in_progress", 0), ("pending", 0)]

/-- Model of `EnhancedExecutionState.get_goal_progress`. -/
def EnhancedExecutionState.get_goal_progress (st : EnhancedExecutionState) :
    List (String × Nat) :=
  goalProgress st.decomposed_goals

/-- One `add_goal` or `update_goal_status` call, as data. -/
inductive GoalOp where
  | add (description status now : String)
  | update (goal_id status now : String)
deriving DecidableEq

/-- The status string an operation assigns. -/
def GoalOp.opStatus : GoalOp → String
  | .add _ status _ => status
  | .update _ status _ => status

/-- Effect of one operation on the goal list (the only field of the state the
two operations touch). -/
def applyGoalOp (goals : List Goal) : GoalOp → List Goal
  | .add desc status now =>
    goals ++
      [{ id := "goal_" ++ toString (goals.length + 1)
         description := desc
         status := status
         created_at := now
         completed_at := none
         related_searches := []
         related_knowledge := [] }]
  | .update gid status now => updateGoalList goals gid status now

/-- Run a call sequence from the empty goal list. -/
def runGoalOps (ops : List GoalOp) : List Goal := ops.foldl applyGoalOp []

theorem applyGoalOp_decomposed_goals (st : EnhancedExecutionState)
    (desc status now gid : String) :
    (st.add_goal desc status now).1.decomposed_goals =
        applyGoalOp st.decomposed_goals (.add desc status now) ∧
      (st.update_goal_status gid status now).decomposed_goals =
        applyGoalOp st.decomposed_goals (.update gid status now) := by
  exact ⟨rfl, rfl⟩

/-- C8: `update_goal_status` either finds no goal with the given id and leaves
the list unchanged, or rewrites exactly the first matching goal: its `status`
becomes the new status, its `completed_at` is assigned the fresh timestamp
precisely when the new status is "completed" and is left at its previous value
otherwise (so a value set earlier is never cleared), and every other field of
that goal — and every other goal — is unchanged. -/
theorem update_goal_status_spec (goals : List Goal) (gid status now : String) :
    ((∀ g ∈ goals, g.id ≠ gid) ∧ updateGoalList goals gid status now = goals) ∨
      (∃ pre g post,
        goals = pre ++ g :: post ∧ (∀ p ∈ pre, p.id ≠ gid) ∧ g.id = gid ∧
          updateGoalList goals gid status now =
            pre ++
              { g with
                status := status
                completed_at :=
                  if status = "completed" then some now
                  else g.completed_at } :: post) := by
  induction goals with
  | nil => exact Or.inl ⟨by simp, rfl⟩
  | cons g rest ih =>
    by_cases h : g.id = gid
    · exact Or.inr ⟨[], g, rest, rfl, by simp, h, by simp [updateGoalList, h]⟩
    · rcases ih with ⟨hall, heq⟩ | ⟨pre, x, post, hsplit, hpre, hx, heq⟩
      · refine Or.inl ⟨?_, ?_⟩
        · intro p hp
          rcases List.mem_cons.mp hp with hpg | hpr
          · rw [hpg]; exact h
          · exact hall p hpr
        · simp [updateGoalList, h, heq]
      · refine Or.inr ⟨g :: pre, x, post, by rw [hsplit]; rfl, ?_, hx, ?_⟩
        · intro p hp
          rcases List.mem_cons.mp hp with hpg | hpr
          · rw [hpg]; exact h
          · exact hpre p hpr
        · simp [updateGoalList, h, heq]

/-- Witness for C8: the characterization applied to a concrete two-goal list
where the second goal matches and moves to "completed". -/
theorem update_goal_status_spec_witness :
    ((∀ g ∈ [({ id := "goal_1", description := "d1", status := "pending",
                created_at := "t0", completed_at := none,
                related_searches := [], related_knowledge := [] } : Goal),
              { id := "goal_2", description := "d2", status := "pending",
                created_at := "t0", completed_at := none,
                related_searches := [], related_knowledge := [] }],
          g.id ≠ "goal_2") ∧
        updateGoalList
            [{ id := "goal_1", description := "d1", status := "pending",
               created_at := "t0", completed_at := none,
               related_searches := [], related_knowledge := [] },
             { id := "goal_2", description := "d2", status := "pending",
               created_at := "t0", completed_at := none,
               related_searches := [], related_knowledge := [] }]
            "goal_2" "completed" "t9" =
          [{ id := "goal_1", description := "d1", status := "pending",
             created_at := "t0", completed_at := none,
             related_searches := [], related_knowledge := [] },
           { id := "goal_2", description := "d2", status := "pending",
             created_at := "t0", completed_at := none,
             related_searches := [], related_knowledge := [] }]) ∨
      (∃ pre g post,
        [({ id := "goal_1", description := "d1", status := "pending",
            created_at := "t0", completed_at := none,
            related_searches := [], related_knowledge := [] } : Goal),
         { id := "goal_2", description := "d2", status := "pending",
           created_at := "t0", completed_at := none,
           related_searches := [], related_knowledge := [] }] =
            pre ++ g :: post ∧
          (∀ p ∈ pre, p.id ≠ "goal_2") ∧ g.id = "goal_2" ∧
          updateGoalList
              [{ id := "goal_1", description := "d1", status := "pending",
                 created_at := "t0", completed_at := none,
                 related_searches := [], related_knowledge := [] },
               { id := "goal_2", description := "d2", status := "pending",
                 created_at := "t0", completed_at := none,
                 related_searches := [], related_knowledge := [] }]
              "goal_2" "completed" "t9" =
            pre ++
              { g with
                status := "completed"
                completed_at :=
                  if ("completed" : String) = "completed" then some "t9"
                  else g.completed_at } :: post) :=
  update_goal_status_spec _ "goal_2" "completed" "t9"

/-- Sum of the status counts in a progress dict: every entry except the
`"total"` bookkeeping entry. -/
def statusSum : List (String × Nat) → Nat
  | [] => 0
  | (k, v) :: rest => (if k = "total" then 0 else v) + statusSum rest

theorem statusSum_progressStep (stats : List (String × Nat)) (g : Goal)
    (hk : g.status ≠ "total") :
    statusSum (progressStep stats g) = statusSum stats + 1 := by
  unfold progressStep
  induction stats with
  | nil => simp [dictGet, dictSet, statusSum, hk]
  | cons p rest ih =>
    obtain ⟨k, w⟩ := p
    by_cases h : k = g.status
    · subst h
      simp [dictGet, dictSet, statusSum, hk]
      omega
    · have hd : dictGet ((k, w) :: rest) g.status = dictGet rest g.status := by
        simp [dictGet, h]
      have hs :
          dictSet ((k, w) :: rest) g.status
              ((dictGet ((k, w) :: rest) g.status).getD 0 + 1) =
            (k, w) ::
              dictSet rest g.status ((dictGet rest g.status).getD 0 + 1) := by
        simp [dictSet, h, hd]
      rw [hs]
      simp only [statusSum]
      rw [ih]
      omega

theorem statusSum_foldl (goals : List Goal) (stats : List (String × Nat))
    (h : ∀ g ∈ goals, g.status ≠ "total") :
    statusSum (goals.foldl progressStep stats) =
      statusSum stats + goals.length := by
  induction goals generalizing stats with
  | nil => simp
  | cons g rest ih =>
    simp only [List.foldl_cons, List.length_cons]
    rw [ih _ (fun x hx => h x (List.mem_cons_of_mem g hx)),
      statusSum_progressStep stats g (h g (List.mem_cons_self g rest))]
    omega

theorem dictGet_dictSet_self (d : List (String × Nat)) (k : String) (v : Nat) :
    dictGet (dictSet d k v) k = some v := by
  induction d with
  | nil => simp [dictGet, dictSet]
  | cons p rest ih =>
    obtain ⟨k0, w⟩ := p
    by_cases h : k0 = k
    · simp [dictGet, dictSet, h]
    · simp [dictGet, dictSet, h, ih]

theorem dictGet_dictSet_other (d : List (String × Nat)) (k key : String)
    (v : Nat) (h : key ≠ k) :
    dictGet (dictSet d k v) key = dictGet d key := by
  have h2 : ¬(k = key) := fun hh => h hh.symm
  induction d with
  | nil => simp [dictGet, dictSet, h2]
  | cons p rest ih =>
    obtain ⟨k0, w⟩ := p
    by_cases h0 : k0 = k
    · subst h0
      simp [dictGet, dictSet, h2]
    · simp [dictGet, dictSet, h0, ih]

theorem dictGet_isSome_progressStep (stats : List (String × Nat)) (g : Goal)
    (key : String) (h : (dictGet stats key).isSome = true) :
    (dictGet (progressStep stats g) key).isSome = true := by
  unfold progressStep
  by_cases hk : key = g.status
  · subst hk
    rw [dictGet_dictSet_self]
    rfl
  · rw [dictGet_dictSet_other _ _ _ _ hk]
    exact h

theorem dictGet_isSome_foldl (goals : List Goal) (stats : List (String × Nat))
    (key : String) (h : (dictGet stats key).isSome = true) :
    (dictGet (goals.foldl progressStep stats) key).isSome = true := by
  induction goals generalizing stats with
  | nil => exact h
  | cons g rest ih =>
    exact ih (progressStep stats g) (dictGet_isSome_progressStep stats g key h)

theorem dictGet_isSome_of_mem (goals : List Goal) (stats : List (String × Nat))
    (g : Goal) (h : g ∈ goals) :
    (dictGet (goals.foldl progressStep stats) g.status).isSome = true := by
  induction goals generalizing stats with
  | nil => cases h
  | cons x rest ih =>
    rcases List.mem_cons.mp h with hg | hg
    · subst hg
      refine dictGet_isSome_foldl rest (progressStep stats g) g.status ?_
      unfold progressStep
      rw [dictGet_dictSet_self]
      rfl
    · exact ih (progressStep stats x) hg

theorem mem_updateGoalList_status (goals : List Goal) (gid st now : String)
    (g : Goal) (h : g ∈ updateGoalList goals gid st now) :
    g ∈ goals ∨ g.status = st := by
  induction goals with
  | nil => simp [updateGoalList] at h
  | cons x rest ih =>
    by_cases hx : x.id = gid
    · simp only [updateGoalList, if_pos hx] at h
      rcases List.mem_cons.mp h with hg | hg
      · right; simp [hg]
      · left; exact List.mem_cons_of_mem x hg
    · simp only [updateGoalList, if_neg hx] at h
      rcases List.mem_cons.mp h with hg | hg
      · left; rw [hg]; exact List.mem_cons_self x rest
      · rcases ih hg with h1 | h1
        · left; exact List.mem_cons_of_mem x h1
        · right; exact h1

theorem status_of_mem_foldl (ops : List GoalOp) (gs : List Goal) (g : Goal)
    (h : g ∈ ops.foldl applyGoalOp gs) :
    g ∈ gs ∨ ∃ op ∈ ops, g.status = op.opStatus := by
  induction ops generalizing gs with
  | nil => exact Or.inl h
  | cons op rest ih =>
    rcases ih (applyGoalOp gs op) h with h1 | ⟨op2, hmem, hst⟩
    · cases op with
      | add desc st now =>
        simp only [applyGoalOp] at h1
        rcases List.mem_append.mp h1 with h2 | h2
        · exact Or.inl h2
        · right
          refine ⟨.add desc st now, List.mem_cons_self _ _, ?_⟩
          simp at h2
          simp [h2, GoalOp.opStatus]
      | update gid st now =>
        simp only [applyGoalOp] at h1
        rcases mem_updateGoalList_status gs gid st now g h1 with h2 | h2
        · exact Or.inl h2
        · exact Or.inr ⟨.update gid st now, List.mem_cons_self _ _, h2⟩
    · exact Or.inr ⟨op2, List.mem_cons_of_mem op hmem, hst⟩

/-- C5 (amended): for every sequence of `add_goal` / `update_goal_status`
calls in which no call assigns the literal status string `"total"`, the status
counts of `get_goal_progress` (every entry except the `"total"` bookkeeping
entry) sum to the total number of goals, every status value *currently held by
some goal* appears as a counted key, and pending / in_progress / completed are
pre-seeded. (Unrestricted status strings break this: a goal whose status is
`"total"` is counted into the bookkeeping entry; and a status that was
assigned but later overwritten does not appear as a key.) -/
theorem goal_progress_spec (ops : List GoalOp)
    (h : ∀ op ∈ ops, op.opStatus ≠ "total") :
    statusSum (goalProgress (runGoalOps ops)) = (runGoalOps ops).length ∧
      (∀ g ∈ runGoalOps ops,
        (dictGet (goalProgress (runGoalOps ops)) g.status).isSome = true) ∧
      (dictGet (goalProgress (runGoalOps ops)) "pending").isSome = true ∧
      (dictGet (goalProgress (runGoalOps ops)) "in_progress").isSome = true ∧
      (dictGet (goalProgress (runGoalOps ops)) "completed").isSome = true := by
  have hst : ∀ g ∈ runGoalOps ops, g.status ≠ "total" := by
    intro g hg
    rcases status_of_mem_foldl ops [] g hg with h1 | ⟨op, hop, hstat⟩
    · cases h1
    · rw [hstat]; exact h op hop
  refine ⟨?_, ?_, ?_, ?_, ?_⟩
  · unfold goalProgress
    rw [statusSum_foldl _ _ hst]
    simp [statusSum]
  · intro g hg
    exact dictGet_isSome_of_mem (runGoalOps ops) _ g hg
  · exact dictGet_isSome_foldl _ _ _ (by simp [dictGet])
  · exact dictGet_isSome_foldl _ _ _ (by simp [dictGet])
  · exact dictGet_isSome_foldl _ _ _ (by simp [dictGet])

/-- The C5 counterexample call sequence: one goal is added with status `"a"`,
then its status is updated to the literal string `"total"`. -/
def c5ops : List GoalOp :=
  [.add "g" "a" "t0", .update "goal_1" "total" "t1"]

/-- C5 counterexample: after `add_goal("g", status="a")` and
`update_goal_status("goal_1", "total")` there is 1 goal but the status counts
of `get_goal_progress` sum to 0 (the goal is counted into the `"total"`
bookkeeping entry), and the status `"a"`, although assigned at some point, is
not a key of the result. -/
theorem goal_progress_counterexample :
    (runGoalOps c5ops).length = 1 ∧
      statusSum (goalProgress (runGoalOps c5ops)) = 0 ∧
      dictGet (goalProgress (runGoalOps c5ops)) "a" = none := by
  decide

/-- The C5 witness call sequence: no status is the literal `"total"`. -/
def c5wops : List GoalOp :=
  [.add "g1" "pending" "t0", .add "g2" "pending" "t1",
   .update "goal_1" "done" "t2"]

/-- Witness for C5: the amended theorem applied to a concrete call sequence,
its hypothesis discharged by evaluation. -/
theorem goal_progress_spec_witness :
    statusSum (goalProgress (runGoalOps c5wops)) = (runGoalOps c5wops).length ∧
      (∀ g ∈ runGoalOps c5wops,
        (dictGet (goalProgress (runGoalOps c5wops)) g.status).isSome = true) ∧
      (dictGet (goalProgress (runGoalOps c5wops)) "pending").isSome = true ∧
      (dictGet (goalProgress (runGoalOps c5wops)) "in_progress").isSome = true ∧
      (dictGet (goalProgress (runGoalOps c5wops)) "completed").isSome = true :=
  goal_progress_spec c5wops (by decide)

/-- Python truthiness of an `Optional[str]`: `None` and `""` are falsy. -/
def optStrTruthy : Option String → Bool
  | none => false
  | some s => s ≠ ""

/-- The goal-linking loop of `add_knowledge`: append the knowledge key to the
`related_knowledge` of the *first* goal with the given id (`break`). -/
def addRelatedKnowledge : List Goal → String → String → List Goal
  | [], _, _ => []
  | g :: rest, gid, key =>
    if g.id = gid then
      { g with related_knowledge := g.related_knowledge ++ [key] } :: rest
    else g :: addRelatedKnowledge rest gid key

/-- Model of `EnhancedExecutionState.add_knowledge`: appends the item unconditionally
(no key-uniqueness check), links it to its goal when `goal_id` is truthy, and
returns the item's key. -/
def EnhancedExecutionState.add_knowledge (st : EnhancedExecutionState)
    (item : KnowledgeItem) : EnhancedExecutionState × String :=
  ({ st with
      knowledge_base := st.knowledge_base ++ [item]
      decomposed_goals :=
        match item.goal_id with
        | some gid =>
          if gid = "" then st.decomposed_goals
          else addRelatedKnowledge st.decomposed_goals gid item.key
        | none => st.decomposed_goals },
    item.key)

/-- The lookup loop shared by `get_knowledge_item`: first item whose key
matches, else `None`. -/
def getKnowledgeList : List KnowledgeItem → String → Option KnowledgeItem
  | [], _ => none
  | it :: rest, key => if it.key = key then some it else getKnowledgeList rest key

/-- Model of `EnhancedExecutionState.get_knowledge_item`. -/
def EnhancedExecutionState.get_knowledge_item (st : EnhancedExecutionState)
    (key : String) : Option KnowledgeItem :=
  getKnowledgeList st.knowledge_base key

/-- The update loop of `update_knowledge_item`: rewrite the *first* item whose
key matches (the `**kwargs` `setattr` loop is modelled as an arbitrary
field-updating function `f`) and return `true`; return `false` and leave the
list unchanged when no key matches. -/
def updateKnowledgeList (f : KnowledgeItem → KnowledgeItem) :
    List KnowledgeItem → String → List KnowledgeItem × Bool
  | [], _ => ([], false)
  | it :: rest, key =>
    if it.key = key then (f it :: rest, true)
    else
      let r := updateKnowledgeList f rest key
      (it :: r.1, r.2)

/-- Model of `EnhancedExecutionState.update_knowledge_item`. -/
def EnhancedExecutionState.update_knowledge_item (st : EnhancedExecutionState)
    (key : String) (f : KnowledgeItem → KnowledgeItem) :
    EnhancedExecutionState × Bool :=
  let r := updateKnowledgeList f st.knowledge_base key
  ({ st with knowledge_base := r.1 }, r.2)

/-- C9: the knowledge-store lookup discipline. `add_knowledge` appends even
when the key already exists (duplicates coexist) and returns the key; when the
key occurs (possibly several times) the getter and the updater operate on the
*first* item carrying it; updating an absent key returns `false` and leaves
every item unchanged. -/
theorem knowledge_store_discipline :
    (∀ (st : EnhancedExecutionState) (item : KnowledgeItem),
        (st.add_knowledge item).1.knowledge_base =
            st.knowledge_base ++ [item] ∧
          (st.add_knowledge item).2 = item.key) ∧
      (∀ (kb1 kb2 : List KnowledgeItem) (it : KnowledgeItem) (key : String),
        it.key = key → (∀ j ∈ kb1, j.key ≠ key) →
          getKnowledgeList (kb1 ++ it :: kb2) key = some it ∧
            ∀ f, updateKnowledgeList f (kb1 ++ it :: kb2) key =
              (kb1 ++ f it :: kb2, true)) ∧
      (∀ (kb : List KnowledgeItem) (key : String)
          (f : KnowledgeItem → KnowledgeItem),
        (∀ j ∈ kb, j.key ≠ key) →
          updateKnowledgeList f kb key = (kb, false)) := by
  refine ⟨fun st item => ⟨rfl, rfl⟩, ?_, ?_⟩
  · intro kb1 kb2 it key hit hkb1
    induction kb1 with
    | nil =>
      constructor
      · simp [getKnowledgeList, hit]
      · intro f
        simp [updateKnowledgeList, hit]
    | cons j rest ih =>
      have hj : ¬(j.key = key) := hkb1 j (List.mem_cons_self j rest)
      have ihr := ih (fun x hx => hkb1 x (List.mem_cons_of_mem j hx))
      constructor
      · simpa [getKnowledgeList, hj] using ihr.1
      · intro f
        have h2 := ihr.2 f
        simp [updateKnowledgeList, hj, h2]
  · intro kb key f habs
    induction kb with
    | nil => rfl
    | cons j rest ih =>
      have hj : ¬(j.key = key) := habs j (List.mem_cons_self j rest)
      have ihr := ih (fun x hx => habs x (List.mem_cons_of_mem j hx))
      simp [updateKnowledgeList, hj, ihr]

/-- Knowledge item with key `"k1"` (first added). -/
def kItemA : KnowledgeItem :=
  { key := "k1", value := "v1", source := "s1", publish_date := none,
    added_at := "t0", confidence := 9/10, goal_id := none, verified := false }

/-- A second knowledge item with the duplicate key `"k1"`. -/
def kItemB : KnowledgeItem :=
  { key := "k1", value := "v2", source := "s2", publish_date := none,
    added_at := "t1", confidence := 1/2, goal_id := none, verified := false }

/-- Knowledge item with key `"k2"`. -/
def kItemC : KnowledgeItem :=
  { key := "k2", value := "v3", source := "s3", publish_date := none,
    added_at := "t2", confidence := 7/10, goal_id := none, verified := false }

/-- The field update performed by the call site
`update_knowledge_item(k_key, verified=True)` in `analysis_tools.py`. -/
def setVerified (it : KnowledgeItem) : KnowledgeItem :=
  { it with verified := true }

/-- Witness for C9: with keys `["k2", "k1", "k1"]`, lookup and update of
`"k1"` hit the first `"k1"` item; updating the absent key returns `false` and
changes nothing. -/
theorem knowledge_store_discipline_witness :
    getKnowledgeList ([kItemC] ++ kItemA :: [kItemB]) "k1" = some kItemA ∧
      updateKnowledgeList setVerified ([kItemC] ++ kItemA :: [kItemB]) "k1" =
        ([kItemC] ++ setVerified kItemA :: [kItemB], true) ∧
      updateKnowledgeList setVerified [kItemC] "absent" = ([kItemC], false) :=
  ⟨(knowledge_store_discipline.2.1 [kItemC] [kItemB] kItemA "k1" rfl
      (by decide)).1,
    (knowledge_store_discipline.2.1 [kItemC] [kItemB] kItemA "k1" rfl
      (by decide)).2 setVerified,
    knowledge_store_discipline.2.2 [kItemC] "absent" setVerified (by decide)⟩

/-- The parsed publish date of an item in day-count timestamps: `none` when
the `publish_date` attribute is falsy (missing/empty) or the parser raises. -/
def pubDateValue (parseDate : String → Option Int) (it : KnowledgeItem) :
    Option Int :=
  match it.publish_date with
  | none => none
  | some s => if s = "" then none else parseDate s

/-- The sort key `parse_date(x.publish_date) if x.publish_date else
datetime.min` used by `get_knowledge_by_recency`; `dtMin` models
`datetime.datetime.min`. (For items that survive the filter the date is
always present and parsable, so `dtMin` is never reached there.) -/
def recencySortKey (parseDate : String → Option Int) (dtMin : Int)
    (it : KnowledgeItem) : Int :=
  (pubDateValue parseDate it).getD dtMin

/-- Model of `EnhancedExecutionState.get_knowledge_by_recency`: keep the items whose
publish date is present, parsable and at or after `now - days`, then sort
them newest-first (Python `sorted` with `reverse=True` is a stable sort;
modelled with the stable `List.mergeSort`). -/
def EnhancedExecutionState.get_knowledge_by_recency
    (parseDate : String → Option Int) (now dtMin : Int)
    (st : EnhancedExecutionState) (days : Int) : List KnowledgeItem :=
  let cutoff := now - days
  let recent := st.knowledge_base.filter (fun it =>
    match pubDateValue parseDate it with
    | some d => cutoff ≤ d
    | none => false)
  recent.mergeSort (fun a b =>
    recencySortKey parseDate dtMin b ≤ recencySortKey parseDate dtMin a)

/-- C6: widening the recency window keeps every item: for every knowledge
base, every day count `D` and every `k ≥ 0`, each item of `byRecency(D)` is
also in `byRecency(D + k)` (same reference time `now`). -/
theorem get_knowledge_by_recency_monotone
    (parseDate : String → Option Int) (now dtMin : Int)
    (st : EnhancedExecutionState) (days : Int) (k : ℕ)
    (it : KnowledgeItem)
    (h : it ∈ st.get_knowledge_by_recency parseDate now dtMin days) :
    it ∈ st.get_knowledge_by_recency parseDate now dtMin (days + k) := by
  unfold EnhancedExecutionState.get_knowledge_by_recency at *
  rw [(List.mergeSort_perm _ _).mem_iff] at h ⊢
  rw [List.mem_filter] at h ⊢
  refine ⟨h.1, ?_⟩
  have h2 := h.2
  cases hpd : pubDateValue parseDate it with
  | none => simp [hpd] at h2
  | some d =>
    simp only [hpd, decide_eq_true_eq] at h2 ⊢
    omega

/-- A knowledge item published 35 integer days before the reference time 100
(at the day-count timestamp 65). -/
def kItemDated : KnowledgeItem :=
  { key := "kd", value := "v", source := "s", publish_date := some "65",
    added_at := "t0", confidence := 1, goal_id := none, verified := false }

/-- Concrete instance of the abstract date parser for recency examples. -/
def parse65 (s : String) : Option Int :=
  if s = "65" then some 65 else none

/-- Concrete one-item state for the recency examples. -/
def recencyState : EnhancedExecutionState :=
  { freshState "t" "d" with knowledge_base := [kItemDated] }

/-- Witness for C6: the item dated 65 with `now = 100` is in the 40-day
window, hence by the theorem also in the 60-day window; and, echoing the spec
scenario, it is outside the 30-day window. -/
theorem get_knowledge_by_recency_monotone_witness :
    kItemDated ∈
        recencyState.get_knowledge_by_recency parse65 100 0
          (40 + ((20 : ℕ) : ℤ)) ∧
      kItemDated ∉ recencyState.get_knowledge_by_recency parse65 100 0 30 := by
  constructor
  · apply get_knowledge_by_recency_monotone parse65 100 0 recencyState 40 20
    unfold EnhancedExecutionState.get_knowledge_by_recency
    rw [(List.mergeSort_perm _ _).mem_iff]
    decide
  · unfold EnhancedExecutionState.get_knowledge_by_recency
    rw [(List.mergeSort_perm _ _).mem_iff]
    decide

/-- The `relativedelta(now, pub_date)` value (years, months, days fields) used
by the freshness report's age bucketing. -/
structure AgeDelta where
  years : Int
  months : Int
  days : Int
deriving DecidableEq

/-- The five age buckets of `KnowledgeFreshnessAnalysisTool._run`
(1个月内, 1-3个月, 3-6个月, 6个月-1年, 1年以上). -/
structure AgeBuckets where
  within1m : Nat
  m1to3 : Nat
  m3to6 : Nat
  m6to1y : Nat
  over1y : Nat
deriving DecidableEq

/-- The bucket classification chain of the freshness report for a parsed
date's age. -/
def bucketAdd (b : AgeBuckets) (age : AgeDelta) : AgeBuckets :=
  if age.years = 0 ∧ age.months = 0 ∧ age.days < 30 then
    { b with within1m := b.within1m + 1 }
  else if age.years = 0 ∧ age.months < 3 then { b with m1to3 := b.m1to3 + 1 }
  else if age.years = 0 ∧ age.months < 6 then { b with m3to6 := b.m3to6 + 1 }
  else if age.years = 0 then { b with m6to1y := b.m6to1y + 1 }
  else { b with over1y := b.over1y + 1 }

/-- One iteration of the freshness report's bucket loop: a truthy, parsable
date is classified by age; a falsy date falls to the `else` branch and a
parse failure to the `except` branch, both counting into the oldest bucket. -/
def freshnessStep (parseDate : String → Option Int) (ageAt : Int → AgeDelta)
    (b : AgeBuckets) (it : KnowledgeItem) : AgeBuckets :=
  match it.publish_date with
  | some s =>
    if s = "" then { b with over1y := b.over1y + 1 }
    else
      match parseDate s with
      | some d => bucketAdd b (ageAt d)
      | none => { b with over1y := b.over1y + 1 }
  | none => { b with over1y := b.over1y + 1 }

/-- The age-bucket distribution the freshness report computes over a list of
knowledge items (the loop in `KnowledgeFreshnessAnalysisTool._run`, which is
run over `self.state.get_knowledge_by_recency(days)`). -/
def freshnessAgeBuckets (parseDate : String → Option Int)
    (ageAt : Int → AgeDelta) (items : List KnowledgeItem) : AgeBuckets :=
  items.foldl (freshnessStep parseDate ageAt) ⟨0, 0, 0, 0, 0⟩

/-- Total count over the five buckets. -/
def bucketsTotal (b : AgeBuckets) : Nat :=
  b.within1m + b.m1to3 + b.m3to6 + b.m6to1y + b.over1y

theorem bucketsTotal_bucketAdd (b : AgeBuckets) (a : AgeDelta) :
    bucketsTotal (bucketAdd b a) = bucketsTotal b + 1 := by
  unfold bucketAdd bucketsTotal
  split_ifs <;> simp <;> omega

theorem bucketsTotal_freshnessStep (parseDate : String → Option Int)
    (ageAt : Int → AgeDelta) (b : AgeBuckets) (it : KnowledgeItem) :
    bucketsTotal (freshnessStep parseDate ageAt b it) = bucketsTotal b + 1 := by
  unfold freshnessStep
  cases it.publish_date with
  | none => simp [bucketsTotal]; omega
  | some s =>
    by_cases hs : s = ""
    · simp [hs, bucketsTotal]; omega
    · simp only [hs, if_neg hs]
      cases parseDate s with
      | none => simp [bucketsTotal]; omega
      | some d => simp [bucketsTotal_bucketAdd]

theorem bucketsTotal_foldl (parseDate : String → Option Int)
    (ageAt : Int → AgeDelta) (items : List KnowledgeItem) (b : AgeBuckets) :
    bucketsTotal (items.foldl (freshnessStep parseDate ageAt) b) =
      bucketsTotal b + items.length := by
  induction items generalizing b with
  | nil => simp
  | cons it rest ih =>
    simp only [List.foldl_cons, List.length_cons]
    rw [ih, bucketsTotal_freshnessStep]
    omega

/-- C2 (amended): an item with a missing or unparsable `publish_date` is
excluded from `byRecency(D)` for every `D`; and the freshness report buckets
exactly the items of the `byRecency` result (its bucket counts total that
result's length), so such an item is omitted from the report as well — its
oldest-bucket fallback never fires for it, because the report iterates only
over `get_knowledge_by_recency`'s output. -/
theorem freshness_report_spec (parseDate : String → Option Int)
    (ageAt : Int → AgeDelta) (now dtMin : Int)
    (st : EnhancedExecutionState) (days : Int) :
    (∀ it ∈ st.knowledge_base, pubDateValue parseDate it = none →
        it ∉ st.get_knowledge_by_recency parseDate now dtMin days) ∧
      bucketsTotal (freshnessAgeBuckets parseDate ageAt
          (st.get_knowledge_by_recency parseDate now dtMin days)) =
        (st.get_knowledge_by_recency parseDate now dtMin days).length := by
  constructor
  · intro it hmem hnone hcontra
    unfold EnhancedExecutionState.get_knowledge_by_recency at hcontra
    rw [(List.mergeSort_perm _ _).mem_iff, List.mem_filter] at hcontra
    have h2 := hcontra.2
    simp [hnone] at h2
  · unfold freshnessAgeBuckets
    rw [bucketsTotal_foldl]
    simp [bucketsTotal]

/-- A knowledge item with no publish date. -/
def noDateItem : KnowledgeItem :=
  { key := "nd", value := "v", source := "s", publish_date := none,
    added_at := "t0", confidence := 1, goal_id := none, verified := false }

/-- Concrete one-item state for the missing-date examples. -/
def c2State : EnhancedExecutionState :=
  { freshState "t" "d" with knowledge_base := [noDateItem] }

/-- A constant `relativedelta` model (its value is irrelevant here). -/
def constAge : Int → AgeDelta := fun _ => ⟨2, 0, 0⟩

/-- C2 counterexample: with a single missing-date item, `byRecency(365)`
excludes it (first half of the claim holds), but the freshness report's oldest
bucket counts 0 items — the item is omitted from the report rather than
bucketed into "1年以上", because the report only iterates over the
`byRecency` result. -/
theorem freshness_report_counterexample :
    noDateItem ∉ c2State.get_knowledge_by_recency parse65 100 0 365 ∧
      (freshnessAgeBuckets parse65 constAge
          (c2State.get_knowledge_by_recency parse65 100 0 365)).over1y = 0 := by
  have hr : c2State.get_knowledge_by_recency parse65 100 0 365 = [] := by
    unfold EnhancedExecutionState.get_knowledge_by_recency
    simp [c2State, freshState, noDateItem, pubDateValue]
  exact ⟨by rw [hr]; simp, by rw [hr]; rfl⟩

/-- Witness for C2: the amended theorem applied to the concrete one-item
state, its per-item hypotheses discharged by evaluation. -/
theorem freshness_report_spec_witness :
    pubDateValue parse65 noDateItem = none ∧
      noDateItem ∉ c2State.get_knowledge_by_recency parse65 100 0 200 ∧
      bucketsTotal (freshnessAgeBuckets parse65 constAge
          (c2State.get_knowledge_by_recency parse65 100 0 200)) =
        (c2State.get_knowledge_by_recency parse65 100 0 200).length :=
  ⟨rfl,
    (freshness_report_spec parse65 constAge 100 0 c2State 200).1 noDateItem
      (by decide) rfl,
    (freshness_report_spec parse65 constAge 100 0 c2State 200).2⟩

/-- Model of `EnhancedExecutionState.add_contradiction`: appends an entry with
id `"contra_" ++ (previous count + 1)`, no resolution text, status
`"unresolved"`, and returns the id. -/
def EnhancedExecutionState.add_contradiction (st : EnhancedExecutionState)
    (conflicting_knowledge_ids : List String) (description : String) :
    EnhancedExecutionState × String :=
  let contra_id := "contra_" ++ toString (st.contradictions.length + 1)
  ({ st with
      contradictions := st.contradictions ++
        [{ id := contra_id
           description := description
           conflicting_knowledge_ids := conflicting_knowledge_ids
           resolution_attempt_description := none
           status := "unresolved" }] },
    contra_id)

/-- The loop of `update_contradiction_status`: on the *first* entry whose id
matches, overwrite `status` and — only when the resolution text is truthy —
`resolution_attempt_description`, then return `true`; return `false` and
change nothing when no id matches. -/
def updateContradictionList :
    List Contradiction → String → String → Option String →
      List Contradiction × Bool
  | [], _, _, _ => ([], false)
  | c :: rest, cid, status, res =>
    if c.id = cid then
      ({ c with
          status := status
          resolution_attempt_description :=
            if optStrTruthy res then res
            else c.resolution_attempt_description } :: rest,
        true)
    else
      let r := updateContradictionList rest cid status res
      (c :: r.1, r.2)

/-- Model of `EnhancedExecutionState.update_contradiction_status`. -/
def EnhancedExecutionState.update_contradiction_status
    (st : EnhancedExecutionState) (contra_id status : String)
    (resolution_description : Option String) : EnhancedExecutionState × Bool :=
  let r := updateContradictionList st.contradictions contra_id status
    resolution_description
  ({ st with contradictions := r.1 }, r.2)

/-- C7 (amended): `update_contradiction_status` either finds no entry with the
given id and is a no-op returning `false`, or rewrites exactly the first
matching entry: its status is overwritten unconditionally, its resolution text
is overwritten only when the given resolution text is truthy (non-`None`,
non-empty) and kept otherwise, and its description, conflicting-key list and
every other entry are unchanged. -/
theorem update_contradiction_status_spec (cs : List Contradiction)
    (cid status : String) (res : Option String) :
    ((∀ c ∈ cs, c.id ≠ cid) ∧
        updateContradictionList cs cid status res = (cs, false)) ∨
      (∃ pre c post,
        cs = pre ++ c :: post ∧ (∀ p ∈ pre, p.id ≠ cid) ∧ c.id = cid ∧
          updateContradictionList cs cid status res =
            (pre ++
              { c with
                status := status
                resolution_attempt_description :=
                  if optStrTruthy res then res
                  else c.resolution_attempt_description } :: post,
              true)) := by
  induction cs with
  | nil => exact Or.inl ⟨by simp, rfl⟩
  | cons c rest ih =>
    by_cases h : c.id = cid
    · exact Or.inr
        ⟨[], c, rest, rfl, by simp, h, by simp [updateContradictionList, h]⟩
    · rcases ih with ⟨hall, heq⟩ | ⟨pre, x, post, hsplit, hpre, hx, heq⟩
      · refine Or.inl ⟨?_, ?_⟩
        · intro p hp
          rcases List.mem_cons.mp hp with hpg | hpr
          · rw [hpg]; exact h
          · exact hall p hpr
        · simp [updateContradictionList, h, heq]
      · refine Or.inr ⟨c :: pre, x, post, by rw [hsplit]; rfl, ?_, hx, ?_⟩
        · intro p hp
          rcases List.mem_cons.mp hp with hpg | hpr
          · rw [hpg]; exact h
          · exact hpre p hpr
        · simp [updateContradictionList, h, heq]

/-- Ledger holding the single contradiction recorded by
`add_contradiction(["k1","k2"], "conflict")`. -/
def c7State : EnhancedExecutionState :=
  ((freshState "t" "d").add_contradiction ["k1", "k2"] "conflict").1

/-- C7 counterexample: resolving with the *empty* resolution text overwrites
the status but does not overwrite the resolution text (Python only assigns it
when the argument is truthy): the entry keeps `resolution_attempt_description
= None` instead of the empty string the claim's unconditional "overwrites"
would give. Description and conflicting keys are unchanged, and the call
returns `true`. -/
theorem update_contradiction_empty_resolution_counterexample :
    (c7State.update_contradiction_status "contra_1" "resolved"
          (some "")).1.contradictions.map
        (fun c => (c.status, c.resolution_attempt_description, c.description,
          c.conflicting_knowledge_ids)) =
      [("resolved", none, "conflict", ["k1", "k2"])] ∧
    (c7State.update_contradiction_status "contra_1" "resolved"
        (some "")).2 = true := by
  decide

/-- Witness for C7: the amended characterization applied to the recorded
ledger with the spec scenario's non-empty resolution text "k1 is newer". -/
theorem update_contradiction_status_spec_witness :
    ((∀ c ∈ c7State.contradictions, c.id ≠ "contra_1") ∧
        updateContradictionList c7State.contradictions "contra_1" "resolved"
            (some "k1 is newer") =
          (c7State.contradictions, false)) ∨
      (∃ pre c post,
        c7State.contradictions = pre ++ c :: post ∧
          (∀ p ∈ pre, p.id ≠ "contra_1") ∧ c.id = "contra_1" ∧
          updateContradictionList c7State.contradictions "contra_1" "resolved"
              (some "k1 is newer") =
            (pre ++
              { c with
                status := "resolved"
                resolution_attempt_description :=
                  if optStrTruthy (some "k1 is newer") then some "k1 is newer"
                  else c.resolution_attempt_description } :: post,
              true)) :=
  update_contradiction_status_spec c7State.contradictions "contra_1"
    "resolved" (some "k1 is newer")

/-- The constant "no critique needed" sentinel the Reviewer returns above the
threshold. -/
def reviewerSentinel : String := "内容质量良好，无需详细批评。"

/-- The Reviewer's prompt after `PromptTemplate.format` (template text
abbreviated to the substituted fields in source order). -/
def reviewerPrompt (task stateSummary content : String) (score : ℚ)
    (reason : String) : String :=
  "你是一个严格的研究内容审辩者。你的任务是对生成的研究内容进行深度分析和批评。" ++
    "\n研究任务: " ++ task ++ "\n执行状态摘要: " ++ stateSummary ++
    "\n生成的内容:\n" ++ content ++ "\n初步评分: " ++ toString score ++
    "/10\n初步评价: " ++ reason ++
    "\n请提供详细的批评。你的批评应当具体、可操作，能够指导下一次更好的生成。"

/-- Model of `ReviewerAgent.critique`: for a score at or above the fixed 8.0
threshold, return the sentinel without invoking the LLM (call count 0);
otherwise invoke the LLM exactly once on the formatted prompt and return its
response (call count 1). -/
def ReviewerAgent.critique (llm : String → String)
    (task stateSummary content : String) (score : ℚ) (reason : String) :
    String × Nat :=
  if 8 ≤ score then (reviewerSentinel, 0)
  else (llm (reviewerPrompt task stateSummary content score reason), 1)

/-- C3: the Reviewer short-circuit. For every score ≥ 8.0, `critique` returns
the fixed sentinel with zero text-generation calls; for every score < 8.0 it
makes exactly one call and returns that call's response. -/
theorem critique_short_circuit (llm : String → String)
    (task stateSummary content reason : String) (score : ℚ) :
    (8 ≤ score →
        ReviewerAgent.critique llm task stateSummary content score reason =
          (reviewerSentinel, 0)) ∧
      (score < 8 →
        ReviewerAgent.critique llm task stateSummary content score reason =
          (llm (reviewerPrompt task stateSummary content score reason), 1)) := by
  constructor
  · intro h
    unfold ReviewerAgent.critique
    rw [if_pos h]
  · intro h
    unfold ReviewerAgent.critique
    rw [if_neg (not_le.mpr h)]

/-- An LLM stub that echoes its prompt. -/
def echoLLM : String → String := fun p => "resp:" ++ p

/-- Witness for C3: at score 9 the sentinel is returned with 0 calls, at
score 5 the stub's response is returned with exactly 1 call. -/
theorem critique_short_circuit_witness :
    ((8 : ℚ) ≤ 9 ∧
        ReviewerAgent.critique echoLLM "task" "sum" "doc" 9 "ok" =
          (reviewerSentinel, 0)) ∧
      ((5 : ℚ) < 8 ∧
        ReviewerAgent.critique echoLLM "task" "sum" "doc" 5 "bad" =
          (echoLLM (reviewerPrompt "task" "sum" "doc" 5 "bad"), 1)) :=
  ⟨⟨by norm_num,
      (critique_short_circuit echoLLM "task" "sum" "doc" "ok" 9).1
        (by norm_num)⟩,
    ⟨by norm_num,
      (critique_short_circuit echoLLM "task" "sum" "doc" "bad" 5).2
        (by norm_num)⟩⟩

/-- The Rewarder's prompt after `PromptTemplate.format` (template text
abbreviated to the substituted fields in source order). -/
def rewarderPrompt (task content : String) : String :=
  "你是一个专业的内容评分员。你的任务是对生成的研究内容进行快速评分。" ++
    "\n研究任务: " ++ task ++ "\n生成的内容:\n" ++ content ++
    "\n请给出一个1-10的综合评分，并简要解释理由。仅返回JSON格式。"

/-- Model of `RewarderAgent.evaluate`: invoke the LLM on the formatted prompt;
on a successful parse return the (score, reason) pair, and on any parse
failure fall back to score 5.0 with a reason embedding the error text and the
raw response — the function is total, so the cycle never aborts. -/
def RewarderAgent.evaluate (parse : String → Except String (ℚ × String))
    (llm : String → String) (task content : String) : ℚ × String :=
  let resp := llm (rewarderPrompt task content)
  match parse resp with
  | Except.ok r => r
  | Except.error e => (5, "评分解析失败: " ++ e ++ ". 原始响应: " ++ resp)

/-- C4: Rewarder fail-soft. Whenever the capability's response fails to parse
as the expected structure (the parser raises with message `e`), `evaluate`
returns score 5.0 with a reason that contains the parse-failure description
and ends with the raw response, instead of raising. -/
theorem evaluate_fail_soft (parse : String → Except String (ℚ × String))
    (llm : String → String) (task content e : String)
    (h : parse (llm (rewarderPrompt task content)) = Except.error e) :
    RewarderAgent.evaluate parse llm task content =
        (5, "评分解析失败: " ++ e ++ ". 原始响应: " ++
          llm (rewarderPrompt task content)) ∧
      (∃ a b, (RewarderAgent.evaluate parse llm task content).2 =
        a ++ e ++ b) ∧
      (∃ c, (RewarderAgent.evaluate parse llm task content).2 =
        c ++ llm (rewarderPrompt task content)) := by
  have he : RewarderAgent.evaluate parse llm task content =
      (5, "评分解析失败: " ++ e ++ ". 原始响应: " ++
        llm (rewarderPrompt task content)) := by
    unfold RewarderAgent.evaluate
    show (match parse (llm (rewarderPrompt task content)) with
        | Except.ok r => r
        | Except.error err =>
          (5, "评分解析失败: " ++ err ++ ". 原始响应: " ++
            llm (rewarderPrompt task content))) =
      (5, "评分解析失败: " ++ e ++ ". 原始响应: " ++
        llm (rewarderPrompt task content))
    rw [h]
  refine ⟨he, ⟨"评分解析失败: ",
      ". 原始响应: " ++ llm (rewarderPrompt task content), ?_⟩,
    ⟨"评分解析失败: " ++ e ++ ". 原始响应: ", ?_⟩⟩
  · rw [he]
    simp [String.append_assoc]
  · rw [he]

/-- A parser stub that always fails, as on non-JSON output. -/
def errParse : String → Except String (ℚ × String) :=
  fun _ => Except.error "Expecting value"

/-- An LLM stub returning unstructured text. -/
def rawLLM : String → String := fun _ => "not json"

/-- Witness for C4: the fail-soft theorem applied to stubs whose response
never parses; the hypothesis is discharged by `rfl`. -/
theorem evaluate_fail_soft_witness :
    errParse (rawLLM (rewarderPrompt "t" "doc")) =
        Except.error "Expecting value" ∧
      (RewarderAgent.evaluate errParse rawLLM "t" "doc" =
          (5, "评分解析失败: " ++ "Expecting value" ++ ". 原始响应: " ++
            rawLLM (rewarderPrompt "t" "doc")) ∧
        (∃ a b, (RewarderAgent.evaluate errParse rawLLM "t" "doc").2 =
          a ++ "Expecting value" ++ b) ∧
        (∃ c, (RewarderAgent.evaluate errParse rawLLM "t" "doc").2 =
          c ++ rawLLM (rewarderPrompt "t" "doc"))) :=
  ⟨rfl, evaluate_fail_soft errParse rawLLM "t" "doc" "Expecting value" rfl⟩
